import Mathlib

/-!
Verification of the ZMK one-wire split-communication protocol
(src/app/src/split/onewire/onewire_peripheral.c and the central-side
receiver file), as a shallow embedding in Lean.

Conventions of the embedding:
* a C u8_t value is a Nat (hypotheses add < 256 where a claim needs it);
* the 16-byte array position_state is a List Nat of length 16;
* the physical line is a list of driven / sampled logic levels (Bool,
  true = high), one entry per bit period;
* the receiver callback is modelled as a pure function of the sequence
  of values returned by its successive onewire_read_byte calls, of the
  buffer named data that its diff loop reads (that identifier is not
  declared anywhere in the C file, so it enters the model as an explicit
  parameter), and of the position_state value on entry.  It returns the
  trace of externally visible actions, the emitted events and the final
  position_state.
-/

/-- POSITION_STATE_DATA_LEN: size in bytes of the position_state array. -/
def POSITION_STATE_DATA_LEN : Nat := 16

/-- ONE_PERIOD_US: the bit period, 50 time units. -/
def ONE_PERIOD_US : Nat := 50

/-- HALF_PERIOD_US: ONE_PERIOD_US / 2 with C integer division. -/
def HALF_PERIOD_US : Nat := ONE_PERIOD_US / 2

/-- FRAMING_SYMBOL: the start-symbol byte 0x55 sent by
onewire_start_transmission. -/
def FRAMING_SYMBOL : Nat := 0x55

/-- halfPeriod: the HALF_PERIOD_US formula with the bit period left as a
parameter, for the timing-derivation claim. -/
def halfPeriod (p : Nat) : Nat := p / 2

/-- sampleOffset: the delay the receiver waits after the falling edge,
ONE_PERIOD_US + HALF_PERIOD_US, with the bit period left as a parameter. -/
def sampleOffset (p : Nat) : Nat := p + halfPeriod p

/-- sizeof_u8: the value of sizeof(byte) in C when byte has type u8_t.
Both onewire_send_byte and onewire_read_byte use it as their loop bound. -/
def sizeof_u8 : Nat := 1

/-- Loop of onewire_send_byte: for i < bound, drive the pin to
byte & 0x01 for one period, then byte >>= 1.  Returns the list of driven
levels, one per period. -/
def onewire_send_byte_loop : Nat → Nat → List Bool
  | 0, _ => []
  | n + 1, byte => ((byte &&& 1) == 1) :: onewire_send_byte_loop n (byte >>> 1)

/-- onewire_send_byte: the levels driven on the line for one byte.  The C
loop bound is sizeof(byte) = 1, so exactly one level is driven. -/
def onewire_send_byte (byte : Nat) : List Bool :=
  onewire_send_byte_loop sizeof_u8 byte

/-- Loop of onewire_read_byte: for i < bound, sample the pin and do
byte |= pin_value << i.  The line is a list of samples, one per period;
past its end the idle-high level (true) is sampled. -/
def onewire_read_byte_loop (samples : List Bool) : Nat → Nat → Nat → Nat
  | 0, _, byte => byte
  | n + 1, i, byte =>
      onewire_read_byte_loop samples n (i + 1)
        (byte ||| ((if samples.getD i true then 1 else 0) <<< i))

/-- onewire_read_byte: decode one byte from the sampled line.  The C loop
bound is sizeof(byte) = 1, so exactly one sample is taken, into bit 0. -/
def onewire_read_byte (samples : List Bool) : Nat :=
  onewire_read_byte_loop samples sizeof_u8 0 0

/-- send_onewire_data at the byte level: onewire_start_transmission sends
FRAMING_SYMBOL then the length byte, then the loop sends data[i] for
i < length.  This is the sequence of bytes handed to onewire_send_byte. -/
def send_onewire_data_bytes (data : List Nat) (length : Nat) : List Nat :=
  FRAMING_SYMBOL :: length :: data.take length

/-- Line levels driven by one whole transmission: each byte of the frame
through onewire_send_byte, then onewire_end_transmission drives the line
high. -/
def onewire_transmission_levels (data : List Nat) (length : Nat) : List Bool :=
  ((send_onewire_data_bytes data length).flatMap onewire_send_byte) ++ [true]

/-- BIT(n) from Zephyr: 1 << n. -/
def BIT (n : Nat) : Nat := 1 <<< n

/-- WRITE_BIT(var, bit, set) from Zephyr:
var = (var & ~BIT(bit)) | (set ? BIT(bit) : 0), on a u8_t variable, so the
complement is taken at 8-bit width (255 ^ BIT(bit)). -/
def WRITE_BIT (var bit : Nat) (set : Bool) : Nat :=
  (var &&& (255 ^^^ BIT bit)) ||| (if set then BIT bit else 0)

/-- The position_state mutation common to zmk_split_onewire_position_pressed
and _released: WRITE_BIT(position_state[position / 8], position % 8, set).
In C an index position / 8 ≥ 16 is an out-of-bounds write into the 16-byte
array (undefined behavior); List.set leaves the list unchanged there. -/
def position_state_update (state : List Nat) (position : Nat) (set : Bool) : List Nat :=
  state.set (position / 8) (WRITE_BIT (state.getD (position / 8) 0) (position % 8) set)

/-- zmk_split_onewire_position_pressed: set the bit, then
send_onewire_data(position_state, sizeof(position_state)).  Returns the
updated state and the transmitted byte sequence. -/
def zmk_split_onewire_position_pressed (state : List Nat) (position : Nat) :
    List Nat × List Nat :=
  let state2 := position_state_update state position true
  (state2, send_onewire_data_bytes state2 POSITION_STATE_DATA_LEN)

/-- zmk_split_onewire_position_released: clear the bit, then
send_onewire_data(position_state, sizeof(position_state)). -/
def zmk_split_onewire_position_released (state : List Nat) (position : Nat) :
    List Nat × List Nat :=
  let state2 := position_state_update state position false
  (state2, send_onewire_data_bytes state2 POSITION_STATE_DATA_LEN)

/-- Bit of a bitmap at a position: byte position / 8, bit position % 8. -/
def bitmap_bit (state : List Nat) (q : Nat) : Bool :=
  (state.getD (q / 8) 0).testBit (q % 8)

/-- The first onewire_read_byte result of the callback is assigned directly
to data_length (no start-symbol byte is decoded before it). -/
def onewire_cb_data_length (reads : List Nat) : Nat := reads.getD 0 0

/-- Payload loop of onewire_cb: for i < len, position_state[i] := vals[i]. -/
def write_payload (state vals : List Nat) (len : Nat) : List Nat :=
  (List.range len).foldl (fun st i => st.set i (vals.getD i 0)) state

/-- First diff-loop component of onewire_cb:
changed_positions[i] = data[i] ^ position_state[i] for i < 16, with
position_state[i] read before it is overwritten in the same iteration. -/
def changed_positions (state1 data : List Nat) : List Nat :=
  (List.range POSITION_STATE_DATA_LEN).map
    (fun i => data.getD i 0 ^^^ state1.getD i 0)

/-- Emission loops of onewire_cb: for i < 16 and j < 8, when
changed_positions[i] & BIT(j) is set, emit position i * 8 + j with
pressed = position_state[i] & BIT(j), position_state having already been
overwritten with data by the diff loop. -/
def emit_events (changed state : List Nat) : List (Nat × Bool) :=
  (List.range POSITION_STATE_DATA_LEN).flatMap (fun i =>
    (List.range 8).filterMap (fun j =>
      if (changed.getD i 0).testBit j then
        some (i * 8 + j, (state.getD i 0).testBit j)
      else none))

/-- The diff step of onewire_cb (its last three loops) as a function of the
position_state value entering the loop (old) and the buffer data (new):
compute changed_positions, overwrite position_state with data, emit one
event per set changed bit in ascending (i, j) order. -/
def onewire_diff_step (old new : List Nat) : List (Nat × Bool) × List Nat :=
  (emit_events (changed_positions old new) (write_payload old new POSITION_STATE_DATA_LEN),
   write_payload old new POSITION_STATE_DATA_LEN)

/-- Externally visible actions of the receiver callback, in program order. -/
inductive CbAction where
  | disarmInterrupt : CbAction
  | wait (us : Nat) : CbAction
  | readByte : CbAction
  | logTooLong (len : Nat) : CbAction
  | emitEvent (position : Nat) (pressed : Bool) : CbAction
  | armInterrupt : CbAction
  deriving DecidableEq, Repr

/-- Result of one invocation of the receiver callback. -/
structure CbResult where
  actions : List CbAction
  events : List (Nat × Bool)
  finalState : List Nat
  deriving DecidableEq, Repr

/-- onewire_cb: disable the falling-edge interrupt, wait
ONE_PERIOD_US + HALF_PERIOD_US, read data_length, read data_length payload
bytes into position_state when data_length < sizeof(position_state) and log
the too-long error otherwise, then run the diff loop against the buffer
data and emit the change events, and finally re-enable the interrupt.
reads is the sequence of values returned by the successive
onewire_read_byte calls; data is the undeclared buffer the diff loop
reads; state is position_state on entry.  The definition is split into the
pieces below; onewire_cb assembles them.

onewire_cb_state1 is the value of position_state after the payload branch:
the payload loop runs only when data_length < sizeof(position_state). -/
def onewire_cb_state1 (reads state : List Nat) : List Nat :=
  if onewire_cb_data_length reads < POSITION_STATE_DATA_LEN then
    write_payload state (reads.drop 1) (onewire_cb_data_length reads)
  else state

/-- Actions of the branch on data_length: one readByte per payload byte in
the good branch, the too-long log line in the other. -/
def onewire_cb_mid_actions (reads : List Nat) : List CbAction :=
  if onewire_cb_data_length reads < POSITION_STATE_DATA_LEN then
    (List.range (onewire_cb_data_length reads)).map (fun _ => CbAction.readByte)
  else [CbAction.logTooLong (onewire_cb_data_length reads)]

/-- Action trace of onewire_cb up to, but not including, the final
re-enabling of the interrupt. -/
def onewire_cb_body (reads data state : List Nat) : List CbAction :=
  [CbAction.disarmInterrupt, CbAction.wait (ONE_PERIOD_US + HALF_PERIOD_US),
    CbAction.readByte]
    ++ onewire_cb_mid_actions reads
    ++ (onewire_diff_step (onewire_cb_state1 reads state) data).1.map
        (fun e => CbAction.emitEvent e.1 e.2)

def onewire_cb (reads data state : List Nat) : CbResult :=
  CbResult.mk (onewire_cb_body reads data state ++ [CbAction.armInterrupt])
    (onewire_diff_step (onewire_cb_state1 reads state) data).1
    (onewire_diff_step (onewire_cb_state1 reads state) data).2

/-- Reference events for the diff claim, written from the words of the
specification: one entry per position whose bit differs between old and
new, in ascending position order, carrying the new value of the bit. -/
def spec_diff_events (old new : List Nat) : List (Nat × Bool) :=
  (List.range 128).filterMap (fun p =>
    if bitmap_bit old p = bitmap_bit new p then none
    else some (p, bitmap_bit new p))

lemma write_payload_zero (state vals : List Nat) :
    write_payload state vals 0 = state := rfl

lemma write_payload_succ (state vals : List Nat) (len : Nat) :
    write_payload state vals (len + 1) =
      (write_payload state vals len).set len (vals.getD len 0) := by
  simp [write_payload, List.range_succ]

lemma write_payload_length (state vals : List Nat) (len : Nat) :
    (write_payload state vals len).length = state.length := by
  induction len with
  | zero => rfl
  | succ n ih => simp [write_payload_succ, List.length_set, ih]

lemma write_payload_getElem?_of_ge (state vals : List Nat) (len i : Nat)
    (h : len ≤ i) : (write_payload state vals len)[i]? = state[i]? := by
  induction len with
  | zero => rfl
  | succ n ih =>
    rw [write_payload_succ, List.getElem?_set_ne (by omega), ih (by omega)]

lemma write_payload_getElem?_of_lt (state vals : List Nat) (len i : Nat)
    (h : i < len) (h2 : i < state.length) :
    (write_payload state vals len)[i]? = some (vals.getD i 0) := by
  induction len with
  | zero => omega
  | succ n ih =>
    rw [write_payload_succ]
    rcases Nat.lt_or_ge i n with hi | hi
    · rw [List.getElem?_set_ne (by omega), ih hi]
    · have hin : i = n := by omega
      subst hin
      exact List.getElem?_set_self (by rw [write_payload_length]; exact h2)

lemma write_payload_full (state vals : List Nat)
    (hs : state.length = POSITION_STATE_DATA_LEN)
    (hv : vals.length = POSITION_STATE_DATA_LEN) :
    write_payload state vals POSITION_STATE_DATA_LEN = vals := by
  apply List.ext_getElem?
  intro i
  rcases Nat.lt_or_ge i POSITION_STATE_DATA_LEN with hi | hi
  · rw [write_payload_getElem?_of_lt state vals _ i hi (by omega)]
    rw [List.getD_eq_getElem?_getD, List.getElem?_eq_getElem (by omega)]
    rfl
  · rw [write_payload_getElem?_of_ge state vals _ i hi,
      List.getElem?_eq_none (by omega), List.getElem?_eq_none (by omega)]

lemma getD_map_range (f : Nat → Nat) (n i : Nat) (h : i < n) :
    ((List.range n).map f).getD i 0 = f i := by
  rw [List.getD_eq_getElem?_getD, List.getElem?_map, List.getElem?_range h]
  rfl

/-- C1: encoding a byte with the transmitter bit sequence and decoding it
with the receiver bit sequence does not return the original byte: both
loops run sizeof(byte) = 1 times, so only the least significant bit
survives; byte 2 round-trips to 0. -/
theorem C1_roundtrip_fails_at_two :
    onewire_read_byte (onewire_send_byte 2) = 0 ∧ (2 : Nat) ≠ 0 := by
  constructor
  · rfl
  · decide

/-- C3: a frame whose decoded length byte is 16 (the bitmap capacity) does
not leave the callback inert: the diff and emission loops still run after
the error log, overwriting position_state with the buffer data and
emitting an event for every bit where data differs from the old state.
With data_length = 16, data = 1 followed by fifteen 0 bytes, and an
all-zero previous state, one event (position 0, pressed) is emitted and
the final state differs from the previous state. -/
theorem C3_too_long_frame_still_mutates :
    (onewire_cb [16] (1 :: List.replicate 15 0) (List.replicate 16 0)).events
        = [(0, true)]
    ∧ (onewire_cb [16] (1 :: List.replicate 15 0) (List.replicate 16 0)).finalState
        ≠ List.replicate 16 0
    ∧ CbAction.logTooLong 16
        ∈ (onewire_cb [16] (1 :: List.replicate 15 0) (List.replicate 16 0)).actions := by
  refine ⟨rfl, by decide, by decide⟩

/-- C4: zmk_split_onewire_position_pressed and _released contain no range
check: called with position 200 against the 16-byte bitmap they still
transmit a complete frame (in C they also write out of bounds through
position_state[200 / 8] = position_state[25]). -/
theorem C4_no_out_of_range_rejection :
    (zmk_split_onewire_position_pressed (List.replicate 16 0) 200).2
        = FRAMING_SYMBOL :: POSITION_STATE_DATA_LEN :: List.replicate 16 0
    ∧ (zmk_split_onewire_position_pressed (List.replicate 16 0) 200).2 ≠ []
    ∧ (zmk_split_onewire_position_released (List.replicate 16 0) 200).2 ≠ [] := by
  refine ⟨rfl, by decide, by decide⟩

/-- C5: each call of zmk_split_onewire_position_pressed or _released
transmits one frame whose length byte is 16 and which carries exactly the
16 bytes of the updated bitmap, in array order, after the start symbol. -/
theorem C5_full_bitmap_frame (state : List Nat) (position : Nat)
    (h : state.length = 16) :
    (zmk_split_onewire_position_pressed state position).2
      = FRAMING_SYMBOL :: POSITION_STATE_DATA_LEN ::
          (zmk_split_onewire_position_pressed state position).1
    ∧ (zmk_split_onewire_position_pressed state position).1.length
        = POSITION_STATE_DATA_LEN
    ∧ (zmk_split_onewire_position_released state position).2
      = FRAMING_SYMBOL :: POSITION_STATE_DATA_LEN ::
          (zmk_split_onewire_position_released state position).1
    ∧ (zmk_split_onewire_position_released state position).1.length
        = POSITION_STATE_DATA_LEN := by
  have hlen : ∀ b : Bool, (position_state_update state position b).length = 16 := by
    intro b
    simp [position_state_update, List.length_set, h]
  refine ⟨?_, ?_, ?_, ?_⟩ <;>
    simp [zmk_split_onewire_position_pressed, zmk_split_onewire_position_released,
      send_onewire_data_bytes, POSITION_STATE_DATA_LEN,
      List.take_of_length_le (Nat.le_of_eq (hlen _)), hlen]

/-- Witness for C5 at the all-zero bitmap and position 3. -/
theorem C5_full_bitmap_frame_witness :
    (List.replicate 16 (0 : Nat)).length = 16
    ∧ (zmk_split_onewire_position_pressed (List.replicate 16 0) 3).2
        = FRAMING_SYMBOL :: POSITION_STATE_DATA_LEN ::
            (zmk_split_onewire_position_pressed (List.replicate 16 0) 3).1 :=
  ⟨by decide, (C5_full_bitmap_frame (List.replicate 16 0) 3 (by decide)).1⟩

/-- C6: the receiver never decodes a start-symbol byte: the first byte it
decodes is assigned to data_length.  Feeding the callback the exact byte
sequence produced by the transmitter, the framing symbol 0x55 = 85 is
taken as the length, fails the capacity check, and the frame is rejected
as too long. -/
theorem C6_first_decoded_byte_is_length :
    onewire_cb_data_length
        (send_onewire_data_bytes (List.replicate 16 0) POSITION_STATE_DATA_LEN)
      = FRAMING_SYMBOL
    ∧ FRAMING_SYMBOL = 85
    ∧ ¬ (FRAMING_SYMBOL < POSITION_STATE_DATA_LEN)
    ∧ CbAction.logTooLong FRAMING_SYMBOL
        ∈ (onewire_cb
            (send_onewire_data_bytes (List.replicate 16 0) POSITION_STATE_DATA_LEN)
            (List.replicate 16 0) (List.replicate 16 0)).actions := by
  refine ⟨rfl, rfl, by decide, by decide⟩

/-- C7: a transmission does not begin with a dedicated one-period low:
onewire_start_transmission immediately sends the framing symbol, whose
least significant bit is 1, so the first level driven on the line is
high. -/
theorem C7_transmission_starts_high :
    (onewire_transmission_levels (List.replicate 16 0) POSITION_STATE_DATA_LEN).head?
        = some true
    ∧ onewire_send_byte FRAMING_SYMBOL = [true] := by
  exact ⟨rfl, rfl⟩

/-- C8 counterexample: with bit period 51, sampleOffset 51 = 51 + 25 = 76,
which is not exactly 1.5 times the period (2 times 76 is not 3 times 51). -/
theorem C8_sample_offset_not_exact_at_51 :
    ¬ (2 * sampleOffset 51 = 3 * 51) := by decide

/-- C8 amended: sampleOffset p = p + p / 2 with integer division; it
equals exactly 1.5 times the period whenever the period is even, and the
receiver waits exactly sampleOffset ONE_PERIOD_US = 75 at the configured
period of 50. -/
theorem C8_sample_offset_even_period (p : Nat) (h : p % 2 = 0) :
    2 * sampleOffset p = 3 * p
    ∧ ONE_PERIOD_US + HALF_PERIOD_US = sampleOffset ONE_PERIOD_US
    ∧ sampleOffset ONE_PERIOD_US = 75 := by
  refine ⟨?_, rfl, rfl⟩
  simp only [sampleOffset, halfPeriod]
  omega

/-- Witness for C8 at the configured period 50. -/
theorem C8_sample_offset_even_period_witness :
    ONE_PERIOD_US % 2 = 0 ∧ 2 * sampleOffset ONE_PERIOD_US = 3 * ONE_PERIOD_US :=
  ⟨by decide, (C8_sample_offset_even_period ONE_PERIOD_US (by decide)).1⟩

/-- C9: every invocation of the receiver callback disables the
falling-edge interrupt as its first action and re-enables it as its last,
whatever bytes are decoded, whatever the buffer data holds and whatever
state the bitmap is in, on the normal path and on the too-long path
alike. -/
theorem C9_interrupt_disarm_first_arm_last (reads data state : List Nat) :
    (onewire_cb reads data state).actions.head? = some CbAction.disarmInterrupt
    ∧ (onewire_cb reads data state).actions.getLast? = some CbAction.armInterrupt := by
  constructor
  · rfl
  · exact List.getLast?_concat _

lemma testBit_255 (j : Nat) (hj : j < 8) : (255 : Nat).testBit j = true := by
  have h : (255 : Nat) = 2 ^ 8 - 1 := by norm_num
  rw [h, Nat.testBit_two_pow_sub_one]
  simpa using hj

lemma testBit_WRITE_BIT_self (var bit : Nat) (hb : bit < 8) (set : Bool) :
    (WRITE_BIT var bit set).testBit bit = set := by
  cases set with
  | true =>
    simp only [WRITE_BIT, BIT, Nat.shiftLeft_eq, one_mul, if_true]
    rw [Nat.testBit_or, Nat.testBit_two_pow_self, Bool.or_true]
  | false =>
    simp only [WRITE_BIT, BIT, Nat.shiftLeft_eq, one_mul]
    rw [if_neg (by decide), Nat.or_zero, Nat.testBit_and, Nat.testBit_xor,
      testBit_255 bit hb, Nat.testBit_two_pow_self]
    simp

lemma testBit_WRITE_BIT_other (var bit j : Nat) (hj : j < 8) (hne : j ≠ bit)
    (set : Bool) : (WRITE_BIT var bit set).testBit j = var.testBit j := by
  have hbj : bit ≠ j := fun hh => hne hh.symm
  cases set with
  | true =>
    simp only [WRITE_BIT, BIT, Nat.shiftLeft_eq, one_mul, if_true]
    rw [Nat.testBit_or, Nat.testBit_and, Nat.testBit_xor, testBit_255 j hj,
      Nat.testBit_two_pow_of_ne hbj]
    simp
  | false =>
    simp only [WRITE_BIT, BIT, Nat.shiftLeft_eq, one_mul]
    rw [if_neg (by decide), Nat.or_zero, Nat.testBit_and, Nat.testBit_xor,
      testBit_255 j hj, Nat.testBit_two_pow_of_ne hbj]
    simp

lemma getD_set_self_of_lt (l : List Nat) (i x : Nat) (h : i < l.length) :
    (l.set i x).getD i 0 = x := by
  rw [List.getD_eq_getElem?_getD, List.getElem?_set_self h]
  rfl

lemma getD_set_of_ne (l : List Nat) (i j x : Nat) (h : i ≠ j) :
    (l.set i x).getD j 0 = l.getD j 0 := by
  rw [List.getD_eq_getElem?_getD, List.getElem?_set_ne h,
    ← List.getD_eq_getElem?_getD]

/-- C10: for every position below 128, the pressed / released update touches
only byte position / 8 of the 16-byte bitmap (an in-bounds index), sets that
byte's bit position % 8 to the new value, and leaves the bit of every other
position, in any byte, unchanged. -/
theorem C10_in_range_update_touches_one_bit (state : List Nat) (position : Nat)
    (h : state.length = 16) (hp : position < 128) :
    position / 8 < POSITION_STATE_DATA_LEN
    ∧ bitmap_bit (position_state_update state position true) position = true
    ∧ bitmap_bit (position_state_update state position false) position = false
    ∧ ∀ q : Nat, q ≠ position → ∀ v : Bool,
        bitmap_bit (position_state_update state position v) q = bitmap_bit state q := by
  have hidx : position / 8 < 16 := by omega
  refine ⟨by simpa [POSITION_STATE_DATA_LEN] using hidx, ?_, ?_, ?_⟩
  · unfold bitmap_bit position_state_update
    rw [getD_set_self_of_lt _ _ _ (by omega)]
    exact testBit_WRITE_BIT_self _ _ (by omega) true
  · unfold bitmap_bit position_state_update
    rw [getD_set_self_of_lt _ _ _ (by omega)]
    exact testBit_WRITE_BIT_self _ _ (by omega) false
  · intro q hq v
    unfold bitmap_bit position_state_update
    by_cases hdiv : q / 8 = position / 8
    · rw [hdiv, getD_set_self_of_lt _ _ _ (by omega)]
      have hmod : q % 8 ≠ position % 8 := by omega
      rw [testBit_WRITE_BIT_other _ _ _ (by omega) hmod v]
    · rw [getD_set_of_ne _ _ _ _ (fun hh => hdiv hh.symm)]

/-- Witness for C10 at the all-zero bitmap and position 10. -/
theorem C10_in_range_update_touches_one_bit_witness :
    (List.replicate 16 (0 : Nat)).length = 16 ∧ 10 < 128
    ∧ bitmap_bit (position_state_update (List.replicate 16 0) 10 true) 10 = true :=
  ⟨by decide, by decide,
    (C10_in_range_update_touches_one_bit (List.replicate 16 0) 10
      (by decide) (by decide)).2.1⟩

lemma range_mul_filterMap {β : Type} (g : Nat → Option β) (m n : Nat) :
    (List.range (m * n)).filterMap g
      = (List.range m).flatMap
          (fun i => (List.range n).filterMap (fun j => g (i * n + j))) := by
  induction m with
  | zero => simp
  | succ k ih =>
    rw [Nat.succ_mul, List.range_add, List.filterMap_append, ih, List.range_succ,
      List.flatMap_append]
    congr 1
    rw [List.filterMap_map, List.flatMap_cons, List.flatMap_nil, List.append_nil]
    rfl

lemma emit_events_eq_spec (old new : List Nat) :
    emit_events (changed_positions old new) new = spec_diff_events old new := by
  unfold spec_diff_events
  have h128 : (128 : Nat) = 16 * 8 := by norm_num
  rw [h128, range_mul_filterMap]
  unfold emit_events POSITION_STATE_DATA_LEN
  apply List.flatMap_congr
  intro i hi
  rw [List.mem_range] at hi
  apply List.filterMap_congr
  intro j hj
  rw [List.mem_range] at hj
  have hch : (changed_positions old new).getD i 0
      = new.getD i 0 ^^^ old.getD i 0 := by
    unfold changed_positions POSITION_STATE_DATA_LEN
    exact getD_map_range _ 16 i hi
  have hdiv : (i * 8 + j) / 8 = i := by omega
  have hmod : (i * 8 + j) % 8 = j := by omega
  rw [hch]
  unfold bitmap_bit
  rw [hdiv, hmod, Nat.testBit_xor]
  cases hbo : (old.getD i 0).testBit j <;> cases hbn : (new.getD i 0).testBit j <;>
    simp [hbo, hbn]

lemma spec_diff_events_sublist (old new : List Nat) (l : List Nat) :
    ((l.filterMap (fun p => if bitmap_bit old p = bitmap_bit new p then none
        else some (p, bitmap_bit new p))).map Prod.fst).Sublist l := by
  induction l with
  | nil => simp
  | cons a t ih =>
    by_cases hc : bitmap_bit old a = bitmap_bit new a
    · simp only [List.filterMap_cons, if_pos hc]
      exact ih.cons a
    · simp only [List.filterMap_cons, if_neg hc, List.map_cons]
      exact ih.cons₂ a

lemma spec_diff_events_pairwise (old new : List Nat) :
    List.Pairwise (fun a b => a < b) ((spec_diff_events old new).map Prod.fst) := by
  unfold spec_diff_events
  exact List.Pairwise.sublist (spec_diff_events_sublist old new (List.range 128))
    (List.pairwise_lt_range 128)

lemma spec_diff_events_nil_iff (old new : List Nat) (ho : old.length = 16)
    (hn : new.length = 16) (hob : ∀ b ∈ old, b < 256) (hnb : ∀ b ∈ new, b < 256) :
    spec_diff_events old new = [] ↔ old = new := by
  unfold spec_diff_events
  rw [List.filterMap_eq_nil_iff]
  constructor
  · intro hall
    have hbit : ∀ p, p < 128 → bitmap_bit old p = bitmap_bit new p := by
      intro p hp
      have hnone := hall p (List.mem_range.mpr hp)
      by_contra hne
      rw [if_neg hne] at hnone
      exact Option.some_ne_none _ hnone
    apply List.ext_getElem?
    intro i
    rcases Nat.lt_or_ge i 16 with hi | hi
    · rw [List.getElem?_eq_getElem (by omega), List.getElem?_eq_getElem (by omega)]
      congr 1
      apply Nat.eq_of_testBit_eq
      intro j
      rcases Nat.lt_or_ge j 8 with hj | hj
      · have hb := hbit (i * 8 + j) (by omega)
        unfold bitmap_bit at hb
        have hdiv : (i * 8 + j) / 8 = i := by omega
        have hmod : (i * 8 + j) % 8 = j := by omega
        rw [hdiv, hmod, List.getD_eq_getElem?_getD, List.getD_eq_getElem?_getD,
          List.getElem?_eq_getElem (by omega), List.getElem?_eq_getElem (by omega)]
          at hb
        exact hb
      · have h2 : (256 : Nat) ≤ 2 ^ j := by
          calc (256 : Nat) = 2 ^ 8 := by norm_num
            _ ≤ 2 ^ j := Nat.pow_le_pow_right (by norm_num) hj
        rw [Nat.testBit_lt_two_pow (lt_of_lt_of_le (hob _ (List.getElem_mem _)) h2),
          Nat.testBit_lt_two_pow (lt_of_lt_of_le (hnb _ (List.getElem_mem _)) h2)]
    · rw [List.getElem?_eq_none (by omega), List.getElem?_eq_none (by omega)]
  · intro h
    subst h
    intro p hp
    rw [if_pos rfl]

/-- C2: for 16-byte bitmaps, the diff step of the receiver emits exactly one
event per position whose bit differs between the old and the new bitmap, in
ascending position order, carrying the new value of that bit (the canonical
filterMap over positions 0..127); the event list is empty exactly when the
bitmaps are equal; and the canonical bitmap afterwards is the new one. -/
theorem C2_diff_step_correct (old new : List Nat) (ho : old.length = 16)
    (hn : new.length = 16) (hob : ∀ b ∈ old, b < 256) (hnb : ∀ b ∈ new, b < 256) :
    (onewire_diff_step old new).1 = spec_diff_events old new
    ∧ ((onewire_diff_step old new).1 = [] ↔ old = new)
    ∧ List.Pairwise (fun a b => a < b) ((onewire_diff_step old new).1.map Prod.fst)
    ∧ (onewire_diff_step old new).2 = new := by
  have hw : write_payload old new POSITION_STATE_DATA_LEN = new :=
    write_payload_full old new (by simpa [POSITION_STATE_DATA_LEN] using ho)
      (by simpa [POSITION_STATE_DATA_LEN] using hn)
  have hstep1 : (onewire_diff_step old new).1
      = emit_events (changed_positions old new) new := by
    unfold onewire_diff_step
    rw [hw]
  refine ⟨?_, ?_, ?_, ?_⟩
  · rw [hstep1]
    exact emit_events_eq_spec old new
  · rw [hstep1, emit_events_eq_spec old new]
    exact spec_diff_events_nil_iff old new ho hn hob hnb
  · rw [hstep1, emit_events_eq_spec old new]
    exact spec_diff_events_pairwise old new
  · have hstep2 : (onewire_diff_step old new).2
        = write_payload old new POSITION_STATE_DATA_LEN := by
      rw [onewire_diff_step]
    rw [hstep2]
    exact hw

/-- Witness for C2 at the all-zero old bitmap and a new bitmap with bits 3
and 122 set. -/
theorem C2_diff_step_correct_witness :
    (List.replicate 16 (0 : Nat)).length = 16
    ∧ (onewire_diff_step (List.replicate 16 0)
          (8 :: (List.replicate 14 0 ++ [4]))).1
        = spec_diff_events (List.replicate 16 0)
            (8 :: (List.replicate 14 0 ++ [4])) :=
  ⟨by decide,
    (C2_diff_step_correct (List.replicate 16 0) (8 :: (List.replicate 14 0 ++ [4]))
      (by decide) (by decide) (by decide) (by decide)).1⟩
